import Mathlib

/-!
Verification of the GitHub folder downloader (`scripts/pyghfd/ghfd.py`).

The development shallowly embeds the two decision-heavy parts of the script:

* `parse_github_url` (source lines 22-65): URL → structured reference
  (owner, repo, revision, revision kind, in-repo path), including the
  lexical revision classifier;
* `download_with_sparse_checkout` (source lines 79-269): the orchestration
  of git commands (clone, commit probe, history extension, sparse
  configuration, checkout) followed by placement of the result, modelled
  as a deterministic function of an environment recording the outcome of
  each external command, producing the run's boolean result and the trace
  of performed effects.

Python library primitives used by the script (`str.strip`, `str.split`,
`str.lower`, `urllib.parse.urlparse(...).path`, `pathlib.Path(...).name`,
`list.insert`) are modelled by explicit executable functions below, each
with a comment stating what it models.
-/

namespace Ghfd

/-- Revision kind. The source represents it by the strings `"branch"`,
`"tag"`, `"commit"` stored in `ref_type`. -/
inductive RefType where
  | branch
  | tag
  | commit
deriving DecidableEq

/-- The structured reference produced by `parse_github_url`
(the tuple returned at source line 65). -/
structure RepoReference where
  owner : String
  repo : String
  revision : String
  kind : RefType
  path : String
deriving DecidableEq

/-! ### Revision classifier (source lines 44-50 and 57-63) -/

/-- The sixteen characters of the Python string literal
`'0123456789abcdef'` (source lines 45 and 58). -/
def hexLowerChars : List Char := "0123456789abcdef".data

/-- Model of Python `len(git_ref) == 40 and all(c in '0123456789abcdef'
for c in git_ref.lower())` (source lines 45 and 58). Python `str.lower`
is modelled character-wise by `Char.toLower`; only ASCII case mapping is
relevant to the hex-digit test. -/
def is_commit_hash (git_ref : String) : Bool :=
  git_ref.length == 40 &&
    (git_ref.data.map Char.toLower).all (fun c => hexLowerChars.contains c)

/-- Model of Python `git_ref.startswith('v')` (source lines 47 and 60). -/
def starts_with_v (git_ref : String) : Bool :=
  match git_ref.data with
  | c :: _ => c == 'v'
  | [] => false

/-- Model of Python `'.' in git_ref or git_ref.startswith('v')`
(source lines 47 and 60). -/
def dot_or_v (git_ref : String) : Bool :=
  git_ref.data.contains '.' || starts_with_v git_ref

/-- The classification of a revision string into commit / tag / branch,
exactly as written (twice, identically) at source lines 44-50 for `tree`
URLs and 57-63 for `blob` URLs. -/
def classify_ref (git_ref : String) : RefType :=
  if is_commit_hash git_ref then .commit
  else if dot_or_v git_ref then .tag
  else .branch

/-! ### Characterisation of the classifier in the spec's terms -/

/-- The twenty-two case-insensitive hexadecimal digit characters. -/
def hexDigitsCI : List Char := "0123456789abcdefABCDEF".data

theorem char_toNat_inj {a b : Char} (h : a.toNat = b.toNat) : a = b :=
  Char.ext (UInt32.ext h)

theorem mem_iff_toNat_mem (c : Char) (L : List Char) :
    c ∈ L ↔ c.toNat ∈ L.map Char.toNat := by
  constructor
  · intro h; exact List.mem_map_of_mem _ h
  · intro h
    rcases List.mem_map.mp h with ⟨x, hx, he⟩
    exact char_toNat_inj he ▸ hx

theorem toLower_mem_hexLower_iff (c : Char) :
    Char.toLower c ∈ hexLowerChars ↔ c ∈ hexDigitsCI := by
  simp only [Char.toLower]
  split
  · next h =>
    have hn : c.toNat = 65 ∨ c.toNat = 66 ∨ c.toNat = 67 ∨ c.toNat = 68 ∨
        c.toNat = 69 ∨ c.toNat = 70 ∨ c.toNat = 71 ∨ c.toNat = 72 ∨
        c.toNat = 73 ∨ c.toNat = 74 ∨ c.toNat = 75 ∨ c.toNat = 76 ∨
        c.toNat = 77 ∨ c.toNat = 78 ∨ c.toNat = 79 ∨ c.toNat = 80 ∨
        c.toNat = 81 ∨ c.toNat = 82 ∨ c.toNat = 83 ∨ c.toNat = 84 ∨
        c.toNat = 85 ∨ c.toNat = 86 ∨ c.toNat = 87 ∨ c.toNat = 88 ∨
        c.toNat = 89 ∨ c.toNat = 90 := by omega
    rcases hn with h1|h1|h1|h1|h1|h1|h1|h1|h1|h1|h1|h1|h1|
      h1|h1|h1|h1|h1|h1|h1|h1|h1|h1|h1|h1|h1 <;>
      rw [mem_iff_toNat_mem c hexDigitsCI, h1] <;> decide
  · next h =>
    rw [mem_iff_toNat_mem c hexLowerChars, mem_iff_toNat_mem c hexDigitsCI]
    have e1 : hexLowerChars.map Char.toNat =
        [48, 49, 50, 51, 52, 53, 54, 55, 56, 57, 97, 98, 99, 100, 101, 102] := by
      decide
    have e2 : hexDigitsCI.map Char.toNat =
        [48, 49, 50, 51, 52, 53, 54, 55, 56, 57, 97, 98, 99, 100, 101, 102,
         65, 66, 67, 68, 69, 70] := by
      decide
    rw [e1, e2]
    simp only [List.mem_cons, List.not_mem_nil, or_false]
    omega

theorem is_commit_hash_iff (r : String) :
    is_commit_hash r = true ↔ (r.length = 40 ∧ ∀ c ∈ r.data, c ∈ hexDigitsCI) := by
  simp only [is_commit_hash, Bool.and_eq_true, beq_iff_eq, List.all_eq_true,
    List.mem_map, List.contains_iff_exists_mem_beq]
  constructor
  · rintro ⟨h40, hall⟩
    refine ⟨h40, fun c hc => ?_⟩
    rcases hall (Char.toLower c) ⟨c, hc, rfl⟩ with ⟨d, hd, hbeq⟩
    have hde : Char.toLower c = d := hbeq
    exact (toLower_mem_hexLower_iff c).mp (hde ▸ hd)
  · rintro ⟨h40, hall⟩
    refine ⟨h40, ?_⟩
    rintro x ⟨c, hc, rfl⟩
    have := (toLower_mem_hexLower_iff c).mpr (hall c hc)
    exact ⟨Char.toLower c, this, by simp⟩

theorem dot_or_v_iff (r : String) :
    dot_or_v r = true ↔ ('.' ∈ r.data ∨ r.data.head? = some 'v') := by
  simp only [dot_or_v, Bool.or_eq_true, starts_with_v]
  rcases hr : r.data with _ | ⟨c, cs⟩ <;>
    simp [List.contains_iff_exists_mem_beq, hr]

/-- C1: the classifier assigns exactly one kind to every revision string,
deterministically: `Commit` iff the string is exactly 40 case-insensitive
hexadecimal characters; otherwise `Tag` iff it contains a dot or starts
with `v`; otherwise `Branch`; and commit classification takes precedence. -/
theorem C1_revision_classifier (r : String) :
    classify_ref r =
      (if r.length = 40 ∧ ∀ c ∈ r.data, c ∈ hexDigitsCI then RefType.commit
       else if ('.' ∈ r.data ∨ r.data.head? = some 'v') then RefType.tag
       else RefType.branch) := by
  simp only [classify_ref]
  by_cases h1 : r.length = 40 ∧ ∀ c ∈ r.data, c ∈ hexDigitsCI
  · rw [if_pos h1]
    simp [(is_commit_hash_iff r).mpr h1]
  · have hb : is_commit_hash r = false := by
      rcases h : is_commit_hash r
      · rfl
      · exact absurd ((is_commit_hash_iff r).mp h) h1
    rw [if_neg h1]
    by_cases h2 : ('.' ∈ r.data ∨ r.data.head? = some 'v')
    · rw [if_pos h2]
      simp [hb, (dot_or_v_iff r).mpr h2]
    · have hb2 : dot_or_v r = false := by
        rcases h : dot_or_v r
        · rfl
        · exact absurd ((dot_or_v_iff r).mp h) h2
      rw [if_neg h2]
      simp [hb, hb2]

/-! ### URL parsing (source lines 22-65)

The script builds `path_parts = urlparse(self.github_url).path.strip('/')
.split('/')` (line 25), where `self.github_url` had trailing slashes
removed on construction (line 19). The Python string primitives are
modelled below on lists of characters. -/

/-- Model of Python `str.split(sep)` for a one-character separator:
splitting the empty string yields `[[]]`, and consecutive separators
yield empty segments, exactly as in Python. -/
def splitOnChar (sep : Char) : List Char → List (List Char)
  | [] => [[]]
  | c :: cs =>
    if c = sep then [] :: splitOnChar sep cs
    else
      match splitOnChar sep cs with
      | [] => [[c]]
      | p :: ps => (c :: p) :: ps

/-- Model of Python `str.rstrip('/')`: remove trailing slashes. -/
def rstripSlash (l : List Char) : List Char :=
  (l.reverse.dropWhile (fun c => c = '/')).reverse

/-- Model of Python `str.strip('/')`: remove leading and trailing
slashes. -/
def stripSlash (l : List Char) : List Char :=
  rstripSlash (l.dropWhile (fun c => c = '/'))

/-- Model of `urllib.parse.urlparse(url).path` for URLs of the shape
`scheme://host/path` without query or fragment (the shapes this script
receives): the characters from the first `/` after the first `://`
onward, or the whole string when no `://` occurs, or `""` when the part
after the host is empty. -/
def dropScheme : List Char → Option (List Char)
  | ':' :: '/' :: '/' :: rest => some rest
  | _ :: cs => dropScheme cs
  | [] => none

def urlparse_path (url : String) : String :=
  match dropScheme url.data with
  | some rest => ⟨rest.dropWhile (fun c => c ≠ '/')⟩
  | none => url

/-- The list `path_parts` of source line 25, for a given URL path
component. -/
def pathParts (p : String) : List String :=
  (splitOnChar '/' (stripSlash p.data)).map (fun l => (⟨l⟩ : String))

/-- Model of `"/".join(path_parts[4:])` (source lines 42 and 55):
the folder path is the remaining segments joined with `/`, and stays
`""` when there are none. -/
def join_folder_path (rest : List String) : String :=
  if rest.isEmpty then "" else String.intercalate "/" rest

/-- The body of `parse_github_url` (source lines 27-65) after
`path_parts` has been computed: owner and repo are the first two
segments (line 30-31, failing when fewer than two exist, lines 27-28);
a `tree` or `blob` third segment with a fourth segment selects revision
and folder path (lines 38-63, the two branches being identical); any
other shape keeps the defaults `git_ref = "main"`, `ref_type = branch`,
`folder_path = ""` (lines 34-36). -/
def parseParts : List String → Option RepoReference
  | [] => none
  | [_] => none
  | owner :: repo :: rest =>
    match rest with
    | t :: git_ref :: rest2 =>
      if t = "tree" then
        some ⟨owner, repo, git_ref, classify_ref git_ref, join_folder_path rest2⟩
      else if t = "blob" then
        some ⟨owner, repo, git_ref, classify_ref git_ref, join_folder_path rest2⟩
      else
        some ⟨owner, repo, "main", .branch, ""⟩
    | _ =>
      some ⟨owner, repo, "main", .branch, ""⟩

/-- `parse_github_url` on the URL's path component (source line 25
onward). -/
def parse_path (p : String) : Option RepoReference :=
  parseParts (pathParts p)

/-- The full parser: trailing-slash removal on construction (line 19),
URL-path extraction (line 24), then segment parsing (lines 25-65). -/
def parse_github_url (github_url : String) : Option RepoReference :=
  parse_path (urlparse_path ⟨rstripSlash github_url.data⟩)

theorem join_folder_path_pair (a b : String) :
    join_folder_path [a, b] = a ++ "/" ++ b := by
  simp [join_folder_path, String.intercalate, String.intercalate.go]

/-- C6: for every URL whose third segment is `tree` or `blob` and which
has a fourth segment, the revision is the fourth segment and the path is
the remaining segments joined with `/`; the `tree` and `blob` forms
produce identical references; in particular `.../tree/{ref}/{a}/{b}`
yields path `a/b` and revision `ref`. -/
theorem C6_tree_blob_parse (o r git_ref : String) (rest : List String) :
    parseParts (o :: r :: "tree" :: git_ref :: rest) =
      some ⟨o, r, git_ref, classify_ref git_ref, join_folder_path rest⟩ ∧
    parseParts (o :: r :: "blob" :: git_ref :: rest) =
      parseParts (o :: r :: "tree" :: git_ref :: rest) ∧
    ∀ a b : String, parseParts (o :: r :: "tree" :: git_ref :: [a, b]) =
      some ⟨o, r, git_ref, classify_ref git_ref, a ++ "/" ++ b⟩ := by
  refine ⟨rfl, rfl, fun a b => ?_⟩
  rw [show parseParts (o :: r :: "tree" :: git_ref :: [a, b]) =
      some ⟨o, r, git_ref, classify_ref git_ref, join_folder_path [a, b]⟩ from rfl,
    join_folder_path_pair]

/-- C10: a URL with at least two path segments whose third segment is
neither `tree` nor `blob`, or whose third segment is `tree`/`blob` but
with no fourth segment, parses successfully to the defaults: revision
`"main"`, kind `Branch`, empty path, discarding the extra segments. -/
theorem C10_non_tree_blob_defaults (o r t : String) (rest : List String)
    (h : (t ≠ "tree" ∧ t ≠ "blob") ∨ rest = []) :
    parseParts (o :: r :: t :: rest) = some ⟨o, r, "main", RefType.branch, ""⟩ := by
  rcases rest with _ | ⟨x, xs⟩
  · rfl
  · rcases h with ⟨h1, h2⟩ | h
    · simp [parseParts, h1, h2]
    · exact absurd h (by simp)

theorem C10_non_tree_blob_defaults_witness :
    (("releases" ≠ "tree" ∧ "releases" ≠ "blob") ∨ (["v1.0"] : List String) = []) ∧
    parseParts ["o", "r", "releases", "v1.0"] =
      some ⟨"o", "r", "main", RefType.branch, ""⟩ :=
  ⟨Or.inl (by decide),
   C10_non_tree_blob_defaults "o" "r" "releases" ["v1.0"] (Or.inl (by decide))⟩

/-! ### Structure of the segment list (support for the C5 claim)

After `strip('/')` the path string neither starts nor ends with a slash,
so the first and last segments produced by `split('/')` are non-empty;
interior segments may still be empty (a `//` in the URL path). -/

theorem head?_dropWhile_false (p : α → Bool) (l : List α) (a : α)
    (h : (l.dropWhile p).head? = some a) : p a = false := by
  induction l with
  | nil => simp [List.dropWhile] at h
  | cons c cs ih =>
    rw [List.dropWhile_cons] at h
    split at h
    · exact ih h
    · next hc => simp at h; subst h; simpa using hc

theorem getLast?_dropWhile (p : α → Bool) (l : List α)
    (h : l.dropWhile p ≠ []) : (l.dropWhile p).getLast? = l.getLast? := by
  induction l with
  | nil => simp at h
  | cons c cs ih =>
    rw [List.dropWhile_cons]
    split
    · next hc =>
      rw [List.dropWhile_cons, if_pos hc] at h
      rw [ih h]
      rcases cs with _ | ⟨d, ds⟩
      · simp [List.dropWhile] at h
      · rfl
    · rfl

theorem stripSlash_head (l : List Char) (c : Char)
    (h : (stripSlash l).head? = some c) : c ≠ '/' := by
  unfold stripSlash rstripSlash at h
  rw [List.head?_reverse] at h
  have hne : (l.dropWhile (fun c => c = '/')).reverse.dropWhile (fun c => c = '/') ≠ [] := by
    intro he
    rw [he] at h
    simp at h
  rw [getLast?_dropWhile _ _ hne, List.getLast?_reverse] at h
  have := head?_dropWhile_false (fun c => c = '/') l c h
  simpa using this

theorem stripSlash_getLast (l : List Char) (c : Char)
    (h : (stripSlash l).getLast? = some c) : c ≠ '/' := by
  unfold stripSlash rstripSlash at h
  rw [List.getLast?_reverse] at h
  have := head?_dropWhile_false (fun c => c = '/') _ c h
  simpa using this

theorem splitOnChar_ne_nil (sep : Char) (l : List Char) : splitOnChar sep l ≠ [] := by
  cases l with
  | nil => simp [splitOnChar]
  | cons c cs =>
    rw [splitOnChar]
    split
    · simp
    · split <;> simp

theorem splitOnChar_head_ne_nil (sep : Char) (c : Char) (cs : List Char)
    (hc : c ≠ sep) :
    ∃ p ps, splitOnChar sep (c :: cs) = (c :: p) :: ps := by
  rw [splitOnChar, if_neg hc]
  rcases hs : splitOnChar sep cs with _ | ⟨p, ps⟩
  · exact absurd hs (splitOnChar_ne_nil sep cs)
  · exact ⟨p, ps, rfl⟩

theorem splitOnChar_getLast_ne_nil (sep : Char) (l : List Char) (hl : l ≠ [])
    (hh : ∀ c, l.getLast? = some c → c ≠ sep) :
    ∃ q, (splitOnChar sep l).getLast? = some q ∧ q ≠ [] := by
  induction l with
  | nil => simp at hl
  | cons c cs ih =>
    by_cases hcs : cs = []
    · subst hcs
      have hc : c ≠ sep := hh c rfl
      rw [splitOnChar, if_neg hc]
      exact ⟨[c], rfl, by simp⟩
    · have hh' : ∀ d, cs.getLast? = some d → d ≠ sep := by
        intro d hd
        apply hh
        rcases cs with _ | ⟨e, es⟩
        · simp_all
        · rw [List.getLast?_cons_cons]
          exact hd
      obtain ⟨q, hq, hqne⟩ := ih hcs hh'
      rw [splitOnChar]
      split
      · rcases h2 : splitOnChar sep cs with _ | ⟨a, as⟩
        · exact absurd h2 (splitOnChar_ne_nil sep cs)
        · rw [List.getLast?_cons_cons]
          rw [h2] at hq
          exact ⟨q, hq, hqne⟩
      · rcases h2 : splitOnChar sep cs with _ | ⟨p, ps⟩
        · exact absurd h2 (splitOnChar_ne_nil sep cs)
        · rcases ps with _ | ⟨s, ss⟩
          · exact ⟨c :: p, rfl, by simp⟩
          · refine ⟨q, ?_, hqne⟩
            rw [List.getLast?_cons_cons]
            rw [h2] at hq
            rw [← List.getLast?_cons_cons (a := p)]
            exact hq

theorem string_mk_ne_empty_iff (x : List Char) : ((⟨x⟩ : String) ≠ "") ↔ x ≠ [] := by
  have he : ("" : String) = ⟨[]⟩ := rfl
  rw [not_iff_not, he, String.ext_iff]

theorem length_filter_map_mk (L : List (List Char)) :
    (((L.map (fun l => (⟨l⟩ : String))).filter (fun s => s ≠ "")).length) =
    ((L.filter (fun l => l ≠ [])).length) := by
  rw [List.filter_map, List.length_map]
  congr 1
  apply List.filter_congr
  intro x _
  simp only [Function.comp]
  rw [decide_eq_decide]
  exact string_mk_ne_empty_iff x

theorem parseParts_owner (x y : String) (rest : List String) (ref : RepoReference)
    (h : parseParts (x :: y :: rest) = some ref) : ref.owner = x := by
  rcases rest with _ | ⟨t, _ | ⟨g, r2⟩⟩ <;> simp only [parseParts] at h
  · rw [← Option.some.inj h]
  · rw [← Option.some.inj h]
  · split at h
    · rw [← Option.some.inj h]
    · split at h
      · rw [← Option.some.inj h]
      · rw [← Option.some.inj h]

theorem parseParts_cons_cons_isSome (a b : String) (rest : List String) :
    (parseParts (a :: b :: rest)).isSome = true := by
  rcases rest with _ | ⟨t, _ | ⟨g, r2⟩⟩ <;> simp only [parseParts]
  · rfl
  · rfl
  · split
    · rfl
    · split <;> rfl

/-- C5 counterexample: the URL `https://github.com/a//b` has two
non-empty path segments, parses successfully, and yields an empty `repo`
string, because the source indexes `path_parts[1]`, which is the empty
segment produced by the double slash. -/
theorem C5_counterexample :
    parse_github_url "https://github.com/a//b" =
      some ⟨"a", "", "main", RefType.branch, ""⟩ := by decide

/-- C5 (amended): parsing fails exactly when fewer than 2 non-empty
segments remain after splitting the stripped URL path on `/`, and in
every successful parse the owner string is non-empty; the repo string,
however, can be empty, when the path's second segment is empty. -/
theorem C5_parse_failure_iff (p : String) :
    (parse_path p = none ↔ ((pathParts p).filter (fun s => s ≠ "")).length < 2) ∧
    (∀ ref, parse_path p = some ref → ref.owner ≠ "") := by
  have hLmap : pathParts p =
      (splitOnChar '/' (stripSlash p.data)).map (fun l => (⟨l⟩ : String)) := rfl
  have hfilter_eq : ((pathParts p).filter (fun s => s ≠ "")).length =
      ((splitOnChar '/' (stripSlash p.data)).filter (fun l => l ≠ [])).length := by
    rw [hLmap]; exact length_filter_map_mk _
  have hnone : parse_path p = none ↔ (pathParts p).length < 2 := by
    rcases hPP : pathParts p with _ | ⟨a, _ | ⟨b, rest⟩⟩
    · simp [parse_path, hPP, parseParts]
    · simp [parse_path, hPP, parseParts]
    · have h1 : parseParts (a :: b :: rest) ≠ none := by
        have h2 := parseParts_cons_cons_isSome a b rest
        intro he; rw [he] at h2; simp at h2
      simp only [parse_path, hPP]
      constructor
      · intro h; exact absurd h h1
      · intro h; exfalso; simp at h; omega
  by_cases hlen : (pathParts p).length < 2
  · constructor
    · rw [hnone]
      constructor
      · intro _
        calc ((pathParts p).filter (fun s => s ≠ "")).length
            ≤ (pathParts p).length := List.length_filter_le _ _
          _ < 2 := hlen
      · intro _; exact hlen
    · intro ref h
      have := hnone.mpr hlen
      rw [h] at this; exact absurd this (by simp)
  · have hlenL : 2 ≤ (splitOnChar '/' (stripSlash p.data)).length := by
      rw [hLmap, List.length_map] at hlen; omega
    have hstrip : stripSlash p.data ≠ [] := by
      intro he; rw [he] at hlenL; simp [splitOnChar] at hlenL
    obtain ⟨c, cs, hcc⟩ : ∃ c cs, stripSlash p.data = c :: cs := by
      rcases hx : stripSlash p.data with _ | ⟨c, cs⟩
      · exact absurd hx hstrip
      · exact ⟨c, cs, rfl⟩
    have hcne : c ≠ '/' := stripSlash_head p.data c (by rw [hcc]; rfl)
    obtain ⟨p₀, ps, hsplit⟩ := splitOnChar_head_ne_nil '/' c cs hcne
    have hLeq : splitOnChar '/' (stripSlash p.data) = (c :: p₀) :: ps := by
      rw [hcc, hsplit]
    have hps : ps ≠ [] := by
      intro he; rw [hLeq, he] at hlenL; simp at hlenL
    obtain ⟨q, hq, hqne⟩ := splitOnChar_getLast_ne_nil '/' (stripSlash p.data)
      hstrip (stripSlash_getLast p.data)
    have hq2 : ps.getLast? = some q := by
      rcases hps' : ps with _ | ⟨s, ss⟩
      · exact absurd hps' hps
      · rw [hLeq, hps', List.getLast?_cons_cons] at hq
        exact hq
    have hqmem : q ∈ ps := List.mem_of_mem_getLast? hq2
    have htwo : 2 ≤ ((splitOnChar '/' (stripSlash p.data)).filter (fun l => l ≠ [])).length := by
      rw [hLeq]
      rw [List.filter_cons_of_pos (by simp)]
      have hm : q ∈ ps.filter (fun l => l ≠ []) :=
        List.mem_filter.mpr ⟨hqmem, by simpa using hqne⟩
      have h1 : 1 ≤ (ps.filter (fun l => l ≠ [])).length :=
        List.length_pos.mpr (List.ne_nil_of_mem hm)
      simp only [List.length_cons]
      omega
    constructor
    · rw [hnone]
      constructor
      · intro h; exact absurd h hlen
      · intro h; exfalso; rw [hfilter_eq] at h; omega
    · intro ref h
      rcases hps' : ps with _ | ⟨s, ss⟩
      · exact absurd hps' hps
      · have hPP2 : pathParts p =
            (⟨c :: p₀⟩ : String) :: (⟨s⟩ : String) :: ss.map (fun l => (⟨l⟩ : String)) := by
          rw [hLmap, hLeq, hps']; rfl
        have h' : parseParts ((⟨c :: p₀⟩ : String) :: (⟨s⟩ : String) ::
            ss.map (fun l => (⟨l⟩ : String))) = some ref := by
          rw [← hPP2]; exact h
        have hown := parseParts_owner _ _ _ _ h'
        rw [hown]
        exact (string_mk_ne_empty_iff (c :: p₀)).mpr (by simp)

theorem C5_parse_failure_iff_witness :
    (⟨"a", "b", "main", RefType.branch, ""⟩ : RepoReference).owner ≠ "" :=
  (C5_parse_failure_iff "a/b").2 ⟨"a", "b", "main", RefType.branch, ""⟩ (by decide)


/-! ### Clone command construction (source lines 107-120) -/

/-- Model of Python `list.insert(-2, x)` for a list of length at least 2:
insert `x` before the second-to-last element. -/
def insertNeg2 (l : List String) (x : String) : List String :=
  l.take (l.length - 2) ++ x :: l.drop (l.length - 2)

/-- The clone command (source lines 107-120): the base command is
checkout-less (`--no-checkout`) and tree-less (`--filter=blob:none`);
for non-commit revisions the four arguments `--depth 1 --branch git_ref`
are inserted, each with `insert(-2, ...)`, before the final URL and
destination arguments. -/
def clone_cmd (clone_url repo_path git_ref : String) (ref_type : RefType) : List String :=
  let base := ["git", "clone", "--no-checkout", "--filter=blob:none", clone_url, repo_path]
  if ref_type ≠ .commit then
    insertNeg2 (insertNeg2 (insertNeg2 (insertNeg2 base "--depth") "1") "--branch") git_ref
  else base

theorem clone_cmd_commit (u p g : String) :
    clone_cmd u p g .commit =
      ["git", "clone", "--no-checkout", "--filter=blob:none", u, p] := rfl

theorem clone_cmd_branch (u p g : String) :
    clone_cmd u p g .branch =
      ["git", "clone", "--no-checkout", "--filter=blob:none",
       "--depth", "1", "--branch", g, u, p] := by
  simp [clone_cmd, insertNeg2]

theorem clone_cmd_tag (u p g : String) :
    clone_cmd u p g .tag =
      ["git", "clone", "--no-checkout", "--filter=blob:none",
       "--depth", "1", "--branch", g, u, p] := by
  simp [clone_cmd, insertNeg2]

/-- C2: the clone is always tree-less and checkout-less; for non-commit
revisions (branch and tag) it additionally passes depth 1 and the
revision string as the branch selector; for commits it consists of the
base arguments only, with no depth and no branch selector. -/
theorem C2_clone_command (clone_url repo_path git_ref : String) :
    clone_cmd clone_url repo_path git_ref .commit =
      ["git", "clone", "--no-checkout", "--filter=blob:none", clone_url, repo_path] ∧
    clone_cmd clone_url repo_path git_ref .branch =
      ["git", "clone", "--no-checkout", "--filter=blob:none",
       "--depth", "1", "--branch", git_ref, clone_url, repo_path] ∧
    clone_cmd clone_url repo_path git_ref .tag =
      clone_cmd clone_url repo_path git_ref .branch := by
  refine ⟨clone_cmd_commit _ _ _, clone_cmd_branch _ _ _, ?_⟩
  rw [clone_cmd_tag, clone_cmd_branch]


/-! ### Destination naming (source lines 183-219) -/

/-- Model of `pathlib.Path(s).name`: the last path component, after
pathlib drops empty and `.` components. -/
def pathlib_name (s : String) : String :=
  (((splitOnChar '/' s.data).map (fun l => (⟨l⟩ : String))).filter
    (fun comp => comp != "" && comp != ".")).getLastD ""

/-- Model of the Python slice `git_ref[:8]` (source lines 191 and 213). -/
def take8 (s : String) : String := ⟨s.data.take 8⟩

/-- Model of Python `git_ref.replace('/', '_')` (source lines 193 and
215). -/
def replace_slash_underscore (s : String) : String :=
  ⟨s.data.map (fun c => if c = '/' then '_' else c)⟩

/-- Destination name in the non-empty-path case (source lines 188-195):
base name of the folder path, suffixed by a revision-derived
disambiguator unless the revision is the branch `main`. -/
def target_name (folder_path git_ref : String) (ref_type : RefType) : String :=
  let folder_name := pathlib_name folder_path
  if ref_type = .commit then folder_name ++ "_" ++ take8 git_ref
  else if ref_type = .tag then folder_name ++ "_" ++ replace_slash_underscore git_ref
  else if git_ref ≠ "main" then folder_name ++ "_" ++ git_ref else folder_name

/-- Destination name in the empty-path, whole-repository case
(source lines 212-217): the repository name takes the place of the
folder base name. -/
def folder_name_whole (repo git_ref : String) (ref_type : RefType) : String :=
  if ref_type = .commit then repo ++ "_" ++ take8 git_ref
  else if ref_type = .tag then repo ++ "_" ++ replace_slash_underscore git_ref
  else if git_ref ≠ "main" then repo ++ "_" ++ git_ref else repo

/-- The destination name the orchestrator uses: source line 183 chooses
between the two cases on the truthiness of `folder_path`. -/
def dest_name (repo folder_path git_ref : String) (ref_type : RefType) : String :=
  if folder_path ≠ "" then target_name folder_path git_ref ref_type
  else folder_name_whole repo git_ref ref_type

/-- Modelled from the spec naming rule (spec section 4.3): base name (or
repo name) plus a kind-specific suffix, omitted exactly for branch
`main`. -/
def destNameSpec (repo folder_path git_ref : String) (k : RefType) : String :=
  let base := if folder_path = "" then repo else pathlib_name folder_path
  match k with
  | .commit => base ++ "_" ++ take8 git_ref
  | .tag => base ++ "_" ++ replace_slash_underscore git_ref
  | .branch => if git_ref = "main" then base else base ++ "_" ++ git_ref

theorem append_underscore_ne (base x : String) : base ++ "_" ++ x ≠ base := by
  intro h
  have hl := congrArg String.length h
  rw [String.length_append, String.length_append] at hl
  have h1 : ("_" : String).length = 1 := rfl
  omega

/-- C4: the destination name is the base name of the path (or the repo
name for an empty path) suffixed with the first 8 characters of the
revision for commits, the revision with `/` replaced by `_` for tags,
and the revision itself for branches; the suffix is omitted exactly when
the kind is branch and the revision is `main`. -/
theorem C4_destination_naming (repo fp git_ref : String) (k : RefType) :
    dest_name repo fp git_ref k = destNameSpec repo fp git_ref k ∧
    (dest_name repo fp git_ref k = (if fp = "" then repo else pathlib_name fp) ↔
      (k = RefType.branch ∧ git_ref = "main")) := by
  constructor
  · cases k <;> by_cases h : fp = "" <;> by_cases hm : git_ref = "main" <;>
      simp [dest_name, destNameSpec, target_name, folder_name_whole, h, hm]
  · cases k <;> by_cases h : fp = "" <;> by_cases hm : git_ref = "main" <;>
      simp [dest_name, target_name, folder_name_whole, h, hm, append_underscore_ne]

/-! ### Checkout orchestration (source lines 79-269)

`download_with_sparse_checkout` is modelled as a deterministic function
of a `GitEnv` recording the outcome of each external command and
filesystem probe. It returns the boolean the Python function returns
(`True` on success, `False` from every `except` handler) together with
the trace of effects, in order. The `with tempfile.TemporaryDirectory()`
block (line 99) guarantees workspace removal on every exit path of the
body, including the `except` returns; `download` therefore appends the
cleanup event unconditionally after the body. Failures of the filesystem
copy itself are not modelled (the script has no specific handling for
them beyond the generic handler). -/

def cat_file_cmd (repo_path git_ref : String) : List String :=
  ["git", "-C", repo_path, "cat-file", "-e", git_ref]

def unshallow_cmd (repo_path : String) : List String :=
  ["git", "-C", repo_path, "fetch", "--unshallow"]

def sparse_config_cmd (repo_path : String) : List String :=
  ["git", "-C", repo_path, "config", "--local", "core.sparseCheckout", "true"]

def checkout_cmd (repo_path git_ref : String) : List String :=
  ["git", "-C", repo_path, "checkout", git_ref]

/-- One observable effect of the orchestrator. -/
inductive Event where
  | run (cmd : List String)
  | writeSparse (patterns : List String)
  | raisePathNotFound (folder_path : String)
  | rmtreeDest
  | copyDest
  | cleanup
deriving DecidableEq

/-- Outcomes of the external commands and filesystem probes: whether the
clone, commit probe, unshallow fetch, sparse-config and checkout
commands succeed; whether the requested folder exists after checkout;
whether the destination already exists; the temporary directory name;
and the content materialised by a successful checkout (a function of the
inputs and the remote state). -/
structure GitEnv where
  cloneOk : Bool
  catFileOk : Bool
  unshallowOk : Bool
  configOk : Bool
  checkoutOk : Bool
  srcExists : Bool
  destExists : Bool
  tempDir : String
  content : String
deriving DecidableEq

/-- The commit probe and conditional history extension (source lines
126-141): only for commits, `cat-file -e` checks the target object; if
it fails, `fetch --unshallow` converts the clone to full history, and
its failure propagates. -/
def stage_probe (repo_path git_ref : String) (ref_type : RefType)
    (env : GitEnv) : Bool × List Event :=
  if ref_type = .commit then
    let t1 := [Event.run (cat_file_cmd repo_path git_ref)]
    if env.catFileOk then (true, t1)
    else (env.unshallowOk, t1 ++ [Event.run (unshallow_cmd repo_path)])
  else (true, [])

/-- The copy phase (source lines 181-252): for a non-empty path, a
missing source folder raises `FileNotFoundError` (caught at line 263,
returning `False`); otherwise a pre-existing destination is removed and
the content copied. The empty-path branch copies everything except
`.git`; both branches are modelled by the same two events. -/
def stage_copy (folder_path : String) (env : GitEnv) : Bool × List Event :=
  if folder_path ≠ "" then
    if !env.srcExists then (false, [Event.raisePathNotFound folder_path])
    else
      (true, (if env.destExists then [Event.rmtreeDest] else []) ++ [Event.copyDest])
  else
    (true, (if env.destExists then [Event.rmtreeDest] else []) ++ [Event.copyDest])

/-- Sparse configuration, pattern write, checkout, then the copy phase
(source lines 144-252). The pattern file contains the folder and its
recursive contents for a non-empty path, `*` otherwise (lines 155-165). -/
def stage_sparse (repo_path git_ref folder_path : String)
    (env : GitEnv) : Bool × List Event :=
  let t3 := [Event.run (sparse_config_cmd repo_path)]
  if !env.configOk then (false, t3)
  else
    let patterns :=
      if folder_path ≠ "" then [folder_path, folder_path ++ "/**"] else ["*"]
    let t5 := t3 ++ [Event.writeSparse patterns,
                     Event.run (checkout_cmd repo_path git_ref)]
    if !env.checkoutOk then (false, t5)
    else
      let r := stage_copy folder_path env
      (r.1, t5 ++ r.2)

/-- The body of `download_with_sparse_checkout` inside the temporary
directory block (source lines 103-269): clone, then probe, then sparse
configuration and copy, stopping at the first failing command (each
`subprocess.run(check=True)` failure lands in the `except` handler of
lines 254-269, which returns `False`). -/
def downloadBody (owner repo git_ref : String) (ref_type : RefType)
    (folder_path : String) (env : GitEnv) : Bool × List Event :=
  let clone_url := "https://github.com/" ++ owner ++ "/" ++ repo ++ ".git"
  let repo_path := env.tempDir ++ "/" ++ repo
  let t0 := [Event.run (clone_cmd clone_url repo_path git_ref ref_type)]
  if !env.cloneOk then (false, t0)
  else
    let p := stage_probe repo_path git_ref ref_type env
    if !p.1 then (false, t0 ++ p.2)
    else
      let r := stage_sparse repo_path git_ref folder_path env
      (r.1, t0 ++ p.2 ++ r.2)

/-- The full operation: the body runs inside
`with tempfile.TemporaryDirectory()` (source line 99), whose exit
removes the workspace on every path out of the body. -/
def download (owner repo git_ref : String) (ref_type : RefType)
    (folder_path : String) (env : GitEnv) : Bool × List Event :=
  let r := downloadBody owner repo git_ref ref_type folder_path env
  (r.1, r.2 ++ [Event.cleanup])

/-- C9: on every exit path of the operation — success, failure of any
intermediate git command, or a mid-sequence error such as a missing
path — the scratch workspace is removed, as the last effect before the
operation returns. -/
theorem C9_workspace_cleanup (owner repo git_ref : String) (ref_type : RefType)
    (folder_path : String) (env : GitEnv) :
    ((download owner repo git_ref ref_type folder_path env).2).getLast? =
      some Event.cleanup := by
  simp [download]

theorem unshallow_cmd_ne_clone_cmd (rp u p g : String) (k : RefType) :
    unshallow_cmd rp ≠ clone_cmd u p g k := by
  cases k <;>
    simp [unshallow_cmd, clone_cmd_commit, clone_cmd_branch, clone_cmd_tag]

theorem unshallow_not_mem_stage_sparse (rp2 rp g fp : String) (env : GitEnv) :
    Event.run (unshallow_cmd rp2) ∉ (stage_sparse rp g fp env).2 := by
  by_cases hc : env.configOk <;> by_cases hk : env.checkoutOk <;>
    by_cases hfp : fp = "" <;> by_cases hs : env.srcExists <;>
    by_cases hd : env.destExists <;>
    simp [stage_sparse, stage_copy, hc, hk, hfp, hs, hd,
      unshallow_cmd, sparse_config_cmd, checkout_cmd]

theorem unshallow_mem_stage_probe_iff (rp g : String) (k : RefType) (env : GitEnv) :
    Event.run (unshallow_cmd rp) ∈ (stage_probe rp g k env).2 ↔
      (k = RefType.commit ∧ env.catFileOk = false) := by
  cases k <;> by_cases hc : env.catFileOk <;>
    simp [stage_probe, hc, unshallow_cmd, cat_file_cmd]

theorem config_mem_stage_sparse (rp g fp : String) (env : GitEnv) :
    Event.run (sparse_config_cmd rp) ∈ (stage_sparse rp g fp env).2 := by
  by_cases hc : env.configOk <;> by_cases hk : env.checkoutOk <;>
    simp [stage_sparse, hc, hk]

theorem stage_probe_fst_of_catFileOk (rp g : String) (k : RefType) (env : GitEnv)
    (h : k = RefType.commit → env.catFileOk = true) :
    (stage_probe rp g k env).1 = true := by
  cases k <;> simp [stage_probe]
  simp [h rfl]

/-- C3: given a successful clone, the history-extension command
(`fetch --unshallow`) appears in the trace exactly when the revision
kind is commit and the object-existence probe fails; and whenever the
probe succeeds or the kind is branch or tag, the orchestrator proceeds
to sparse configuration. -/
theorem C3_history_extension (owner repo git_ref : String) (ref_type : RefType)
    (folder_path : String) (env : GitEnv) (h : env.cloneOk = true) :
    (Event.run (unshallow_cmd (env.tempDir ++ "/" ++ repo)) ∈
        (download owner repo git_ref ref_type folder_path env).2 ↔
      (ref_type = RefType.commit ∧ env.catFileOk = false)) ∧
    ((ref_type = RefType.commit → env.catFileOk = true) →
      Event.run (sparse_config_cmd (env.tempDir ++ "/" ++ repo)) ∈
        (download owner repo git_ref ref_type folder_path env).2) := by
  constructor
  · by_cases hp : (stage_probe (env.tempDir ++ "/" ++ repo) git_ref ref_type env).1 = true
    · simp [download, downloadBody, h, hp, unshallow_cmd_ne_clone_cmd,
        unshallow_not_mem_stage_sparse, unshallow_mem_stage_probe_iff]
    · simp [download, downloadBody, h, hp, unshallow_cmd_ne_clone_cmd,
        unshallow_mem_stage_probe_iff]
  · intro hcat
    have hp := stage_probe_fst_of_catFileOk (env.tempDir ++ "/" ++ repo) git_ref
      ref_type env hcat
    simp [download, downloadBody, h, hp, config_mem_stage_sparse]

theorem C3_history_extension_witness :
    ((⟨true, false, true, true, true, true, true, "/tmp/w", "x"⟩ : GitEnv).cloneOk = true) ∧
    (Event.run (unshallow_cmd ("/tmp/w" ++ "/" ++ "r")) ∈
      (download "o" "r" "0123456789012345678901234567890123456789" RefType.commit ""
        ⟨true, false, true, true, true, true, true, "/tmp/w", "x"⟩).2 ↔
      (RefType.commit = RefType.commit ∧
        (⟨true, false, true, true, true, true, true, "/tmp/w", "x"⟩ : GitEnv).catFileOk = false)) :=
  ⟨rfl, (C3_history_extension "o" "r" "0123456789012345678901234567890123456789"
    RefType.commit "" ⟨true, false, true, true, true, true, true, "/tmp/w", "x"⟩ rfl).1⟩

/-- C7: whenever the requested in-repo path is non-empty and absent from
the workspace after the checkout step, the run fails (the
`FileNotFoundError` of source line 186 is raised and caught, returning
`False`), and no removal of or copy to the destination is performed. -/
theorem C7_path_not_found (owner repo git_ref : String) (ref_type : RefType)
    (folder_path : String) (env : GitEnv)
    (hfp : folder_path ≠ "")
    (hclone : env.cloneOk = true)
    (hprobe : ref_type = RefType.commit → (env.catFileOk = true ∨ env.unshallowOk = true))
    (hconfig : env.configOk = true)
    (hcheckout : env.checkoutOk = true)
    (hsrc : env.srcExists = false) :
    (download owner repo git_ref ref_type folder_path env).1 = false ∧
    Event.raisePathNotFound folder_path ∈
      (download owner repo git_ref ref_type folder_path env).2 ∧
    Event.copyDest ∉ (download owner repo git_ref ref_type folder_path env).2 ∧
    Event.rmtreeDest ∉ (download owner repo git_ref ref_type folder_path env).2 := by
  rcases href : ref_type with _ | _ | _
  · simp [download, downloadBody, stage_probe, stage_sparse, stage_copy,
      hclone, hconfig, hcheckout, hfp, hsrc]
  · simp [download, downloadBody, stage_probe, stage_sparse, stage_copy,
      hclone, hconfig, hcheckout, hfp, hsrc]
  · by_cases hc : env.catFileOk = true
    · simp [download, downloadBody, stage_probe, stage_sparse, stage_copy,
        hclone, hconfig, hcheckout, hfp, hsrc, hc]
    · have hcf : env.catFileOk = false := by
        rcases hcc : env.catFileOk
        · rfl
        · exact absurd hcc hc
      have hu : env.unshallowOk = true := by
        rcases hprobe href with hx | hx
        · exact absurd hx hc
        · exact hx
      simp [download, downloadBody, stage_probe, stage_sparse, stage_copy,
        hclone, hconfig, hcheckout, hfp, hsrc, hcf, hu]

theorem C7_path_not_found_witness :
    (download "o" "r" "dev" RefType.branch "src"
      ⟨true, true, true, true, true, false, false, "/tmp/w", "x"⟩).1 = false ∧
    Event.raisePathNotFound "src" ∈
      (download "o" "r" "dev" RefType.branch "src"
        ⟨true, true, true, true, true, false, false, "/tmp/w", "x"⟩).2 :=
  ⟨(C7_path_not_found "o" "r" "dev" RefType.branch "src"
      ⟨true, true, true, true, true, false, false, "/tmp/w", "x"⟩
      (by decide) rfl (fun h => by cases h) rfl rfl rfl).1,
   (C7_path_not_found "o" "r" "dev" RefType.branch "src"
      ⟨true, true, true, true, true, false, false, "/tmp/w", "x"⟩
      (by decide) rfl (fun h => by cases h) rfl rfl rfl).2.1⟩

/-! ### Destination state and idempotence (C8) -/

theorem stage_copy_success_shape (fp : String) (env : GitEnv)
    (h : (stage_copy fp env).1 = true) :
    (stage_copy fp env).2 =
      (if env.destExists then [Event.rmtreeDest] else []) ++ [Event.copyDest] := by
  by_cases hfp : fp = "" <;> by_cases hs : env.srcExists = true <;>
    simp [stage_copy, hfp, hs] at h ⊢ <;> simp_all

theorem downloadBody_fst_clone (o r g : String) (k : RefType) (fp : String)
    (env : GitEnv) (h : (downloadBody o r g k fp env).1 = true) :
    env.cloneOk = true := by
  rcases hc : env.cloneOk
  · simp [downloadBody, hc] at h
  · rfl

theorem downloadBody_fst_probe (o r g : String) (k : RefType) (fp : String)
    (env : GitEnv) (h : (downloadBody o r g k fp env).1 = true) :
    (stage_probe (env.tempDir ++ "/" ++ r) g k env).1 = true := by
  have hc := downloadBody_fst_clone o r g k fp env h
  rcases hp : (stage_probe (env.tempDir ++ "/" ++ r) g k env).1
  · simp [downloadBody, hc, hp] at h
  · rfl

theorem downloadBody_fst_sparse (o r g : String) (k : RefType) (fp : String)
    (env : GitEnv) (h : (downloadBody o r g k fp env).1 = true) :
    (stage_sparse (env.tempDir ++ "/" ++ r) g fp env).1 = true := by
  have hc := downloadBody_fst_clone o r g k fp env h
  have hp := downloadBody_fst_probe o r g k fp env h
  simp [downloadBody, hc, hp] at h
  exact h

theorem stage_sparse_fst (rp g fp : String) (env : GitEnv)
    (h : (stage_sparse rp g fp env).1 = true) :
    env.configOk = true ∧ env.checkoutOk = true ∧ (stage_copy fp env).1 = true := by
  rcases hc : env.configOk
  · simp [stage_sparse, hc] at h
  · rcases hk : env.checkoutOk
    · simp [stage_sparse, hc, hk] at h
    · simp [stage_sparse, hc, hk] at h
      exact ⟨rfl, rfl, h⟩

theorem download_success_shape (o r g : String) (k : RefType) (fp : String)
    (env : GitEnv) (h : (download o r g k fp env).1 = true) :
    ∃ pre, (download o r g k fp env).2 =
      pre ++ (if env.destExists then [Event.rmtreeDest] else []) ++
        [Event.copyDest, Event.cleanup] := by
  have hb : (downloadBody o r g k fp env).1 = true := by
    simpa [download] using h
  have hc := downloadBody_fst_clone o r g k fp env hb
  have hp := downloadBody_fst_probe o r g k fp env hb
  have hs := downloadBody_fst_sparse o r g k fp env hb
  obtain ⟨hcfg, hck, hcopy⟩ := stage_sparse_fst _ _ _ _ hs
  refine ⟨[Event.run (clone_cmd ("https://github.com/" ++ o ++ "/" ++ r ++ ".git")
      (env.tempDir ++ "/" ++ r) g k)] ++
    (stage_probe (env.tempDir ++ "/" ++ r) g k env).2 ++
    ([Event.run (sparse_config_cmd (env.tempDir ++ "/" ++ r))] ++
     [Event.writeSparse (if fp ≠ "" then [fp, fp ++ "/**"] else ["*"]),
      Event.run (checkout_cmd (env.tempDir ++ "/" ++ r) g)]), ?_⟩
  simp only [download, downloadBody, hc, hp, Bool.not_true, if_neg]
  simp only [stage_sparse, hcfg, hck, Bool.not_true]
  rw [stage_copy_success_shape fp env hcopy]
  simp [List.append_assoc]

/-- The effect of one trace event on the destination directory state
(`none` = absent, `some c` = present with content `c`):
`shutil.rmtree` removes it (source lines 205 and 227), the copy
(source lines 208 and 230-238) writes the checked-out content. -/
def applyEvent (content : String) (d : Option String) : Event → Option String
  | Event.rmtreeDest => none
  | Event.copyDest => some content
  | _ => d

/-- Destination state after a run, starting from a previous state. -/
def destAfter (o r g : String) (k : RefType) (fp : String) (env : GitEnv)
    (prev : Option String) : Option String :=
  ((download o r g k fp env).2).foldl (applyEvent env.content) prev

theorem destAfter_of_success (o r g : String) (k : RefType) (fp : String)
    (env : GitEnv) (prev : Option String) (h : (download o r g k fp env).1 = true) :
    destAfter o r g k fp env prev = some env.content := by
  obtain ⟨pre, hpre⟩ := download_success_shape o r g k fp env h
  rw [destAfter, hpre, List.foldl_append, List.foldl_append]
  rcases env.destExists <;> simp [applyEvent]

/-- C8: with identical inputs and identical remote state (same
checked-out content), two successful runs leave byte-identical
destination content, independent of whatever was at the destination
before each run; a pre-existing destination is deleted in full
immediately before the copy, so the second run fully replaces the
first run's output with no merge of old content. -/
theorem C8_idempotent_replacement (o r g : String) (k : RefType) (fp : String)
    (env1 env2 : GitEnv) (prev1 prev2 : Option String)
    (h1 : (download o r g k fp env1).1 = true)
    (h2 : (download o r g k fp env2).1 = true)
    (hc : env1.content = env2.content) :
    destAfter o r g k fp env1 prev1 = destAfter o r g k fp env2 prev2 ∧
    destAfter o r g k fp env1 prev1 = some env1.content ∧
    (env1.destExists = true →
      ∃ pre, (download o r g k fp env1).2 =
        pre ++ [Event.rmtreeDest, Event.copyDest, Event.cleanup]) := by
  refine ⟨?_, destAfter_of_success o r g k fp env1 prev1 h1, ?_⟩
  · rw [destAfter_of_success o r g k fp env1 prev1 h1,
      destAfter_of_success o r g k fp env2 prev2 h2, hc]
  · intro hd
    obtain ⟨pre, hpre⟩ := download_success_shape o r g k fp env1 h1
    rw [hd] at hpre
    exact ⟨pre, by simpa using hpre⟩

theorem C8_idempotent_replacement_witness :
    destAfter "o" "r" "main" RefType.branch "src"
        ⟨true, true, true, true, true, true, true, "/tmp/w", "payload"⟩ (some "old") =
      destAfter "o" "r" "main" RefType.branch "src"
        ⟨true, true, true, true, true, true, true, "/tmp/w", "payload"⟩ none ∧
    destAfter "o" "r" "main" RefType.branch "src"
        ⟨true, true, true, true, true, true, true, "/tmp/w", "payload"⟩ (some "old") =
      some "payload" :=
  ⟨(C8_idempotent_replacement "o" "r" "main" RefType.branch "src"
      ⟨true, true, true, true, true, true, true, "/tmp/w", "payload"⟩
      ⟨true, true, true, true, true, true, true, "/tmp/w", "payload"⟩
      (some "old") none (by decide) (by decide) rfl).1,
   (C8_idempotent_replacement "o" "r" "main" RefType.branch "src"
      ⟨true, true, true, true, true, true, true, "/tmp/w", "payload"⟩
      ⟨true, true, true, true, true, true, true, "/tmp/w", "payload"⟩
      (some "old") none (by decide) (by decide) rfl).2.1⟩

end Ghfd
